import Mathlib

/-!
Verification of the SIPO shift-register driver (`src/sipo.rs`).

The driver owns three physical output pins (clock, latch, data) and an
N-bit `output_state` array.  Its single operation `update(index, command)`
writes the commanded bit into `output_state`, then bit-bangs the whole
array out MSB-first (latch low, N data/clock-pulse steps, latch high).

Shallow embedding: the three physical pin handles are opaque values; the
physical effect of the driver is recorded as a trace of `(role, level)`
write events.  Each physical pin may fail a write; a fault oracle decides,
from the pin's own write history, whether the next write succeeds —
mirroring `embedded_hal::OutputPin::set_high/set_low` returning `Result`.
All pin errors are mapped to the unit error, exactly as the source does
with `.map_err(|_e| ())`.
-/

namespace Sipo

/-- The three physical roles a pin write can target. -/
inductive Role
  | clock
  | latch
  | data
deriving DecidableEq, Repr

/-- A digital level driven onto a pin. -/
inductive Level
  | low
  | high
deriving DecidableEq, Repr

/-- The global sequence of physical pin writes, in program order. -/
abbrev Trace := List (Role × Level)

/-- The writes a single role has received, in order (its pin's history). -/
def roleHist (t : Trace) (r : Role) : List Level :=
  (t.filter (fun e => e.1 == r)).map (fun e => e.2)

/-- Fault model for the three physical pins: given a role, that pin's own
write history so far and the level about to be driven, decide whether the
write succeeds.  Each pin's behaviour depends only on its own history,
matching three independent `OutputPin` implementations. -/
def Faults : Type := Role → List Level → Level → Bool

/-- A fault model under which every physical write succeeds. -/
def faultFree (f : Faults) : Prop := ∀ r h lv, f r h lv = true

/-- One physical pin write (`set_high`/`set_low` on the pin of role `r`):
on success the event is appended to the trace, on failure `none` models
the pin's `Err` (which the driver maps to the unit error). -/
def pinWrite (f : Faults) (t : Trace) (r : Role) (lv : Level) : Option Trace :=
  if f r (roleHist t r) lv then some (t ++ [(r, lv)]) else none

/-- Result of the shift loop: the trace on normal exit, the trace at the
point of an aborted pin write, or an out-of-bounds array access (a Rust
panic — never reachable, as proved below). -/
inductive LoopResult
  | ok (t : Trace)
  | error (t : Trace)
  | panicked
deriving DecidableEq, Repr

/-- The loop body of `update` (src/sipo.rs:81-89):
`for i in 1..=output_state.len()` drives `data` to the value of
`output_state[output_state.len() - i]`, then pulses `clock` high then low;
any failing write aborts via `?`.  The iteration values `i` are passed as
the list `List.range' 1 out.length = [1, ..., out.length]`. -/
def shiftLoop (f : Faults) (out : List Bool) : List Nat → Trace → LoopResult
  | [], t => .ok t
  | i :: rest, t =>
    match out[out.length - i]? with
    | none => .panicked
    | some bit =>
      match pinWrite f t .data (if bit then .high else .low) with
      | none => .error t
      | some t1 =>
        match pinWrite f t1 .clock .high with
        | none => .error t1
        | some t2 =>
          match pinWrite f t2 .clock .low with
          | none => .error t2
          | some t3 => shiftLoop f out rest t3

/-- The shift register (`ShiftRegisterN` of src/sipo.rs, non-freertos):
the three physical pin handles (of arbitrary types, as in the Rust
generics `Pin1, Pin2, Pin3`), the `output_state` array, and the trace of
physical writes performed so far through the three pins. -/
structure SR (P1 P2 P3 : Type) where
  clock : P1
  latch : P2
  data : P3
  output_state : List Bool
  trace : Trace
deriving DecidableEq, Repr

/-- Result of `update`: success or unit error (each carrying the
register state, i.e. the contents of the `RefCell`s after the call), or a
Rust panic from an out-of-bounds `output_state[index]` write. -/
inductive UpdateResult (P1 P2 P3 : Type)
  | ok (s : SR P1 P2 P3)
  | error (s : SR P1 P2 P3)
  | panicked
deriving DecidableEq, Repr

/-- The caller-visible value of `update` (`Result<(), ()>` in the source):
the state is interior, the caller only sees `Ok(())` or `Err(())`.
`none` stands for a panic, which returns no value at all. -/
def UpdateResult.toResult {P1 P2 P3 : Type} :
    UpdateResult P1 P2 P3 → Option (Except Unit Unit)
  | .ok _ => some (.ok ())
  | .error _ => some (.error ())
  | .panicked => none

/-- The state held in `update`'s result, when it returned at all. -/
def UpdateResult.state? {P1 P2 P3 : Type} :
    UpdateResult P1 P2 P3 → Option (SR P1 P2 P3)
  | .ok s => some s
  | .error s => some s
  | .panicked => none

/-- `update` (src/sipo.rs:76-93): write `command` into
`output_state[index]` (a panic if `index` is out of bounds), then drive
`latch` low, run the shift loop over `i = 1..=len` on the updated array,
and drive `latch` high; every failing pin write returns `Err(())` at once
via `?`, leaving the `RefCell` contents as they were at that point. -/
def update {P1 P2 P3 : Type} (f : Faults) (s : SR P1 P2 P3)
    (index : Nat) (command : Bool) : UpdateResult P1 P2 P3 :=
  if index < s.output_state.length then
    match pinWrite f s.trace .latch .low with
    | none => .error { s with output_state := s.output_state.set index command }
    | some t1 =>
      match shiftLoop f (s.output_state.set index command)
          (List.range' 1 (s.output_state.set index command).length) t1 with
      | .panicked => .panicked
      | .error t2 =>
        .error { s with output_state := s.output_state.set index command,
                        trace := t2 }
      | .ok t2 =>
        match pinWrite f t2 .latch .high with
        | none =>
          .error { s with output_state := s.output_state.set index command,
                          trace := t2 }
        | some t3 =>
          .ok { s with output_state := s.output_state.set index command,
                       trace := t3 }
  else .panicked

/-- A virtual output pin (`ShiftRegisterPin`, src/sipo.rs:24-28): just a
bit index; the reference to the shared register is passed explicitly. -/
structure ShiftRegisterPin where
  index : Nat
deriving DecidableEq, Repr

/-- `OutputPin::set_low` for a virtual pin (src/sipo.rs:44-47):
`self.shift_register.update(self.index, false)?`. -/
def ShiftRegisterPin.set_low {P1 P2 P3 : Type} (f : Faults)
    (p : ShiftRegisterPin) (s : SR P1 P2 P3) : UpdateResult P1 P2 P3 :=
  update f s p.index false

/-- `OutputPin::set_high` for a virtual pin (src/sipo.rs:49-52):
`self.shift_register.update(self.index, true)?`. -/
def ShiftRegisterPin.set_high {P1 P2 P3 : Type} (f : Faults)
    (p : ShiftRegisterPin) (s : SR P1 P2 P3) : UpdateResult P1 P2 P3 :=
  update f s p.index true

/-- `new` (src/sipo.rs:103-110): wrap the three pins and initialise
`output_state` to `[false; N]`; no physical write happens (empty trace).
The macro's fixed `$size` is the parameter `size` here. -/
def new {P1 P2 P3 : Type} (clock : P1) (latch : P2) (data : P3)
    (size : Nat) : SR P1 P2 P3 :=
  { clock := clock, latch := latch, data := data,
    output_state := List.replicate size false, trace := [] }

/-- `decompose` (src/sipo.rs:113-131): build one `ShiftRegisterPin` per
`enumerate` index of the `output_state` array; the register itself is
returned unchanged — the body performs no pin write and no state
mutation. -/
def decompose {P1 P2 P3 : Type} (s : SR P1 P2 P3) :
    List ShiftRegisterPin × SR P1 P2 P3 :=
  ((List.range s.output_state.length).map fun index =>
      ShiftRegisterPin.mk index, s)

/-- `release` (src/sipo.rs:134-137): consume the register and hand back
the three physical pin handles, in order, with no further writes. -/
def release {P1 P2 P3 : Type} (s : SR P1 P2 P3) : P1 × P2 × P3 :=
  (s.clock, s.latch, s.data)

/-- One data/clock/clock step of the intended shift-out sequence for bit
index `j` of the array `out`. -/
def bitBlock (out : List Bool) (j : Nat) : Trace :=
  [(Role.data, if out.getD j false then Level.high else Level.low),
   (Role.clock, Level.high), (Role.clock, Level.low)]

/-- The shift-out phase as the specification words it: for the `k`-th
clock pulse (`k = 0, ..., N-1`) the data line carries bit `N - 1 - k`
(highest index first) and the clock is pulsed high then low. -/
def specBits (out : List Bool) : Trace :=
  ((List.range out.length).map fun k =>
    bitBlock out (out.length - 1 - k)).flatten

/-- The full physical write sequence of one successful `update` on the
array `out`, as the specification words it: latch low; the shift-out
phase; latch high. -/
def specWriteSeq (out : List Bool) : Trace :=
  [(Role.latch, Level.low)] ++ specBits out ++ [(Role.latch, Level.high)]

/-- The writes the shift loop performs for the iteration values `is`:
iteration `i` shifts out bit `out.length - i`. -/
def loopBlocks (out : List Bool) (is : List Nat) : Trace :=
  (is.map fun i => bitBlock out (out.length - i)).flatten

/-- States reachable from `s` by any sequence of `update` calls (whether
they succeed or fail), under the fault model `f`. -/
inductive Reaches {P1 P2 P3 : Type} (f : Faults) :
    SR P1 P2 P3 → SR P1 P2 P3 → Prop
  | refl (s : SR P1 P2 P3) : Reaches f s s
  | stepOk {s t u : SR P1 P2 P3} {i : Nat} {v : Bool} :
      Reaches f s t → update f t i v = .ok u → Reaches f s u
  | stepErr {s t u : SR P1 P2 P3} {i : Nat} {v : Bool} :
      Reaches f s t → update f t i v = .error u → Reaches f s u

/-! ### Helper lemmas about the trace and the shift loop -/

lemma roleHist_append (t u : Trace) (r : Role) :
    roleHist (t ++ u) r = roleHist t r ++ roleHist u r := by
  simp [roleHist, List.filter_append]

lemma roleHist_flatten (L : List Trace) (r : Role) :
    roleHist L.flatten r = (L.map (fun t => roleHist t r)).flatten := by
  induction L with
  | nil => simp [roleHist]
  | cons t L ih => simp [List.flatten_cons, roleHist_append, ih]

lemma roleHist_eq_nil {w : Trace} {r : Role}
    (h : ∀ e ∈ w, e.1 ≠ r) : roleHist w r = [] := by
  have : w.filter (fun e => e.1 == r) = [] := by
    rw [List.filter_eq_nil_iff]
    intro e he
    simpa using h e he
  simp [roleHist, this]

lemma mem_bitBlock_role {out : List Bool} {j : Nat} :
    ∀ e ∈ bitBlock out j, e.1 = Role.data ∨ e.1 = Role.clock := by
  intro e he
  simp only [bitBlock, List.mem_cons, List.not_mem_nil, or_false] at he
  rcases he with h | h | h <;> subst h <;> simp

lemma mem_loopBlocks_role {out : List Bool} {is : List Nat} :
    ∀ e ∈ loopBlocks out is, e.1 = Role.data ∨ e.1 = Role.clock := by
  intro e he
  simp only [loopBlocks, List.mem_flatten, List.mem_map] at he
  obtain ⟨b, ⟨i, -, hb⟩, heb⟩ := he
  exact mem_bitBlock_role e (hb ▸ heb)

lemma mem_specBits_role {out : List Bool} :
    ∀ e ∈ specBits out, e.1 = Role.data ∨ e.1 = Role.clock := by
  intro e he
  simp only [specBits, List.mem_flatten, List.mem_map] at he
  obtain ⟨b, ⟨k, -, hb⟩, heb⟩ := he
  exact mem_bitBlock_role e (hb ▸ heb)

lemma pinWrite_faultFree {f : Faults} (hf : faultFree f)
    (t : Trace) (r : Role) (lv : Level) :
    pinWrite f t r lv = some (t ++ [(r, lv)]) := by
  simp [pinWrite, hf r (roleHist t r) lv]

lemma pinWrite_some {f : Faults} {t t' : Trace} {r : Role} {lv : Level}
    (h : pinWrite f t r lv = some t') : t' = t ++ [(r, lv)] := by
  unfold pinWrite at h
  split at h
  · exact (Option.some.inj h).symm
  · cases h

lemma range'_bounds (n : Nat) : ∀ j ∈ List.range' 1 n, 1 ≤ j ∧ j ≤ n := by
  intro j hj
  rw [List.mem_range'_1] at hj
  omega

lemma loopBlocks_range' (out : List Bool) :
    loopBlocks out (List.range' 1 out.length) = specBits out := by
  rw [loopBlocks, specBits, List.range'_eq_map_range, List.map_map]
  congr 1
  apply List.map_congr_left
  intro k _
  simp only [Function.comp_apply]
  congr 1
  omega

lemma shiftLoop_faultFree {f : Faults} (hf : faultFree f) (out : List Bool) :
    ∀ (is : List Nat) (t : Trace), (∀ j ∈ is, 1 ≤ j ∧ j ≤ out.length) →
      shiftLoop f out is t = .ok (t ++ loopBlocks out is) := by
  intro is
  induction is with
  | nil => intro t _; simp [shiftLoop, loopBlocks]
  | cons i rest ih =>
    intro t hb
    have hi : 1 ≤ i ∧ i ≤ out.length := hb i (List.mem_cons_self ..)
    have hlt : out.length - i < out.length := by omega
    simp only [shiftLoop, List.getElem?_eq_getElem hlt,
      pinWrite_faultFree hf]
    rw [ih _ (fun j hj => hb j (List.mem_cons_of_mem _ hj))]
    simp [loopBlocks, bitBlock, List.getElem?_eq_getElem hlt]

lemma shiftLoop_ok_trace {f : Faults} {out : List Bool} :
    ∀ {is : List Nat} {t t' : Trace}, (∀ j ∈ is, 1 ≤ j ∧ j ≤ out.length) →
      shiftLoop f out is t = .ok t' → t' = t ++ loopBlocks out is := by
  intro is
  induction is with
  | nil =>
    intro t t' _ h
    rw [shiftLoop] at h
    cases h
    simp [loopBlocks]
  | cons i rest ih =>
    intro t t' hb h
    have hi : 1 ≤ i ∧ i ≤ out.length := hb i (List.mem_cons_self ..)
    have hlt : out.length - i < out.length := by omega
    simp only [shiftLoop, List.getElem?_eq_getElem hlt] at h
    cases h1 : pinWrite f t .data (if out[out.length - i] then .high else .low) with
    | none => simp only [h1] at h; cases h
    | some t1 =>
      simp only [h1] at h
      cases h2 : pinWrite f t1 .clock .high with
      | none => simp only [h2] at h; cases h
      | some t2 =>
        simp only [h2] at h
        cases h3 : pinWrite f t2 .clock .low with
        | none => simp only [h3] at h; cases h
        | some t3 =>
          simp only [h3] at h
          have := ih (fun j hj => hb j (List.mem_cons_of_mem _ hj)) h
          rw [this, pinWrite_some h3, pinWrite_some h2, pinWrite_some h1]
          simp [loopBlocks, bitBlock, List.getElem?_eq_getElem hlt]

lemma shiftLoop_ne_panicked {f : Faults} {out : List Bool} :
    ∀ {is : List Nat} {t : Trace}, (∀ j ∈ is, 1 ≤ j ∧ j ≤ out.length) →
      shiftLoop f out is t ≠ .panicked := by
  intro is
  induction is with
  | nil => intro t _; simp [shiftLoop]
  | cons i rest ih =>
    intro t hb
    have hi : 1 ≤ i ∧ i ≤ out.length := hb i (List.mem_cons_self ..)
    have hlt : out.length - i < out.length := by omega
    simp only [shiftLoop, List.getElem?_eq_getElem hlt]
    cases h1 : pinWrite f t .data (if out[out.length - i] then .high else .low) with
    | none => simp [h1]
    | some t1 =>
      simp only [h1]
      cases h2 : pinWrite f t1 .clock .high with
      | none => simp [h2]
      | some t2 =>
        simp only [h2]
        cases h3 : pinWrite f t2 .clock .low with
        | none => simp [h3]
        | some t3 =>
          simp only [h3]
          exact ih (fun j hj => hb j (List.mem_cons_of_mem _ hj))

lemma shiftLoop_error {f : Faults} {out : List Bool} :
    ∀ {is : List Nat} {t t' : Trace}, (∀ j ∈ is, 1 ≤ j ∧ j ≤ out.length) →
      shiftLoop f out is t = .error t' →
      ∃ w, t' = t ++ w ∧ w <+: loopBlocks out is ∧
        ∀ e ∈ w, e.1 = Role.data ∨ e.1 = Role.clock := by
  intro is
  induction is with
  | nil => intro t t' _ h; rw [shiftLoop] at h; cases h
  | cons i rest ih =>
    intro t t' hb h
    have hi : 1 ≤ i ∧ i ≤ out.length := hb i (List.mem_cons_self ..)
    have hlt : out.length - i < out.length := by omega
    have hblock : bitBlock out (out.length - i) =
        [(Role.data, if out[out.length - i] then Level.high else Level.low),
         (Role.clock, Level.high), (Role.clock, Level.low)] := by
      simp [bitBlock, List.getElem?_eq_getElem hlt]
    simp only [shiftLoop, List.getElem?_eq_getElem hlt] at h
    have hLB : loopBlocks out (i :: rest) =
        bitBlock out (out.length - i) ++ loopBlocks out rest := by
      simp [loopBlocks]
    cases h1 : pinWrite f t .data (if out[out.length - i] then .high else .low) with
    | none =>
      simp only [h1] at h
      cases h
      exact ⟨[], by simp, ⟨loopBlocks out (i :: rest), by simp⟩, by simp⟩
    | some t1 =>
      simp only [h1] at h
      cases h2 : pinWrite f t1 .clock .high with
      | none =>
        simp only [h2] at h
        cases h
        refine ⟨[(Role.data, if out[out.length - i] then Level.high else Level.low)],
          pinWrite_some h1, ⟨[(Role.clock, Level.high), (Role.clock, Level.low)]
            ++ loopBlocks out rest, ?_⟩, by intro e he; simp at he; simp [he]⟩
        rw [hLB, hblock]
        simp
      | some t2 =>
        simp only [h2] at h
        cases h3 : pinWrite f t2 .clock .low with
        | none =>
          simp only [h3] at h
          cases h
          refine ⟨[(Role.data, if out[out.length - i] then Level.high else Level.low),
            (Role.clock, Level.high)], ?_, ⟨[(Role.clock, Level.low)]
              ++ loopBlocks out rest, ?_⟩, ?_⟩
          · rw [pinWrite_some h2, pinWrite_some h1]; simp
          · rw [hLB, hblock]; simp
          · intro e he; simp at he
            rcases he with he | he <;> simp [he]
        | some t3 =>
          simp only [h3] at h
          obtain ⟨w, hw, ⟨u, hu⟩, hroles⟩ :=
            ih (fun j hj => hb j (List.mem_cons_of_mem _ hj)) h
          refine ⟨bitBlock out (out.length - i) ++ w, ?_, ⟨u, ?_⟩, ?_⟩
          · rw [hw, pinWrite_some h3, pinWrite_some h2, pinWrite_some h1, hblock]
            simp
          · rw [hLB, List.append_assoc, hu]
          · intro e he
            rcases List.mem_append.mp he with he | he
            · exact mem_bitBlock_role e he
            · exact hroles e he

/-! ### Characterisation of `update` -/

lemma update_faultFree {P1 P2 P3 : Type} {f : Faults} (hf : faultFree f)
    (s : SR P1 P2 P3) (index : Nat) (command : Bool)
    (h : index < s.output_state.length) :
    update f s index command =
      .ok { s with
        output_state := s.output_state.set index command,
        trace := s.trace ++ specWriteSeq (s.output_state.set index command) } := by
  have hb := range'_bounds (s.output_state.set index command).length
  unfold update
  rw [if_pos h]
  simp only [pinWrite_faultFree hf]
  rw [shiftLoop_faultFree hf _ _ _ hb]
  simp only [pinWrite_faultFree hf]
  have hre : List.range' 1 s.output_state.length =
      List.range' 1 (s.output_state.set index command).length := by
    rw [List.length_set]
  simp [specWriteSeq, loopBlocks_range', List.append_assoc, hre]

lemma update_char {P1 P2 P3 : Type} (f : Faults) (s : SR P1 P2 P3)
    (index : Nat) (command : Bool) (h : index < s.output_state.length) :
    ∃ s', (update f s index command = .ok s' ∨
           update f s index command = .error s') ∧
      s'.clock = s.clock ∧ s'.latch = s.latch ∧ s'.data = s.data ∧
      s'.output_state = s.output_state.set index command := by
  have hb := range'_bounds (s.output_state.set index command).length
  unfold update
  rw [if_pos h]
  cases h1 : pinWrite f s.trace .latch .low with
  | none =>
    simp only [h1]
    exact ⟨_, Or.inr rfl, rfl, rfl, rfl, rfl⟩
  | some t1 =>
    simp only [h1]
    cases h2 : shiftLoop f (s.output_state.set index command)
        (List.range' 1 (s.output_state.set index command).length) t1 with
    | panicked => exact absurd h2 (shiftLoop_ne_panicked hb)
    | error t2 =>
      simp only [h2]
      exact ⟨_, Or.inr rfl, rfl, rfl, rfl, rfl⟩
    | ok t2 =>
      simp only [h2]
      cases h3 : pinWrite f t2 .latch .high with
      | none =>
        simp only [h3]
        exact ⟨_, Or.inr rfl, rfl, rfl, rfl, rfl⟩
      | some t3 =>
        simp only [h3]
        exact ⟨_, Or.inl rfl, rfl, rfl, rfl, rfl⟩

lemma update_panicked_iff {P1 P2 P3 : Type} (f : Faults) (s : SR P1 P2 P3)
    (index : Nat) (command : Bool) :
    update f s index command = .panicked ↔ s.output_state.length ≤ index := by
  constructor
  · intro hp
    by_contra hlt
    push_neg at hlt
    obtain ⟨s', hor, -⟩ := update_char f s index command hlt
    rcases hor with h | h <;> rw [h] at hp <;> cases hp
  · intro hge
    unfold update
    rw [if_neg (by omega)]

lemma update_error_trace {P1 P2 P3 : Type} {f : Faults} {s s' : SR P1 P2 P3}
    {index : Nat} {command : Bool} (h : index < s.output_state.length)
    (he : update f s index command = .error s') :
    ∃ w, s'.trace = s.trace ++ w ∧
      w <+: specWriteSeq (s.output_state.set index command) ∧
      w.length < (specWriteSeq (s.output_state.set index command)).length ∧
      (Role.latch, Level.high) ∉ w ∧
      (roleHist s'.trace Role.latch = roleHist s.trace Role.latch ∨
        roleHist s'.trace Role.latch =
          roleHist s.trace Role.latch ++ [Level.low]) := by
  have hb := range'_bounds (s.output_state.set index command).length
  have hspeclen : (specWriteSeq (s.output_state.set index command)).length =
      (specBits (s.output_state.set index command)).length + 2 := by
    simp [specWriteSeq]
  unfold update at he
  rw [if_pos h] at he
  cases h1 : pinWrite f s.trace .latch .low with
  | none =>
    simp only [h1] at he
    cases he
    refine ⟨[], by simp,
      ⟨specWriteSeq (s.output_state.set index command), by simp⟩,
      by simp [hspeclen], by simp, ?_⟩
    exact Or.inl rfl
  | some t1 =>
    simp only [h1] at he
    have ht1 : t1 = s.trace ++ [(Role.latch, Level.low)] := pinWrite_some h1
    cases h2 : shiftLoop f (s.output_state.set index command)
        (List.range' 1 (s.output_state.set index command).length) t1 with
    | panicked => simp only [h2] at he; cases he
    | error t2 =>
      simp only [h2] at he
      cases he
      obtain ⟨w', hw', ⟨u, hu⟩, hroles⟩ := shiftLoop_error hb h2
      rw [loopBlocks_range'] at hu
      refine ⟨(Role.latch, Level.low) :: w', ?_, ⟨u ++ [(Role.latch, Level.high)], ?_⟩,
        ?_, ?_, ?_⟩
      · simp [hw', ht1]
      · simp only [specWriteSeq]
        simp [← hu]
      · have := congrArg List.length hu
        simp at this
        simp [hspeclen]
        omega
      · intro hmem
        rcases List.mem_cons.mp hmem with hx | hx
        · cases hx
        · rcases hroles _ hx with hr | hr <;> simp at hr
      · right
        rw [hw', ht1]
        rw [List.append_assoc, roleHist_append]
        congr 1
        have hnil : roleHist w' Role.latch = [] := by
          apply roleHist_eq_nil
          intro e he'
          rcases hroles e he' with hr | hr <;> simp [hr]
        rw [roleHist_append, hnil]
        simp [roleHist]
    | ok t2 =>
      simp only [h2] at he
      have ht2 : t2 = t1 ++ specBits (s.output_state.set index command) := by
        have := shiftLoop_ok_trace hb h2
        rwa [loopBlocks_range'] at this
      cases h3 : pinWrite f t2 .latch .high with
      | none =>
        simp only [h3] at he
        cases he
        refine ⟨(Role.latch, Level.low) :: specBits (s.output_state.set index command),
          ?_, ⟨[(Role.latch, Level.high)], by simp [specWriteSeq]⟩, ?_, ?_, ?_⟩
        · simp [ht2, ht1]
        · simp [hspeclen]
        · intro hmem
          rcases List.mem_cons.mp hmem with hx | hx
          · cases hx
          · rcases mem_specBits_role _ hx with hr | hr <;> simp at hr
        · right
          rw [ht2, ht1]
          rw [List.append_assoc, roleHist_append]
          congr 1
          have hnil : roleHist (specBits (s.output_state.set index command))
              Role.latch = [] := by
            apply roleHist_eq_nil
            intro e he'
            rcases mem_specBits_role e he' with hr | hr <;> simp [hr]
          rw [roleHist_append, hnil]
          simp [roleHist]
      | some t3 => simp only [h3] at he; cases he

lemma roleHist_bitBlock_clock (out : List Bool) (j : Nat) :
    roleHist (bitBlock out j) Role.clock = [Level.high, Level.low] := by
  simp [roleHist, bitBlock]

lemma roleHist_specWriteSeq_clock (out : List Bool) :
    roleHist (specWriteSeq out) Role.clock =
      (List.replicate out.length [Level.high, Level.low]).flatten := by
  have hmid : roleHist (specBits out) Role.clock =
      (List.replicate out.length [Level.high, Level.low]).flatten := by
    rw [specBits, roleHist_flatten, List.map_map]
    congr 1
    rw [show ((fun t => roleHist t Role.clock) ∘ fun k =>
          bitBlock out (out.length - 1 - k)) =
        fun _ => [Level.high, Level.low] from
      funext fun k => roleHist_bitBlock_clock out (out.length - 1 - k)]
    rw [List.map_const', List.length_range]
  rw [specWriteSeq, roleHist_append, roleHist_append, hmid]
  rw [show roleHist [(Role.latch, Level.low)] Role.clock = [] from rfl,
    show roleHist [(Role.latch, Level.high)] Role.clock = [] from rfl]
  simp

lemma roleHist_specWriteSeq_latch (out : List Bool) :
    roleHist (specWriteSeq out) Role.latch = [Level.low, Level.high] := by
  have hnil : roleHist (specBits out) Role.latch = [] := by
    apply roleHist_eq_nil
    intro e he
    rcases mem_specBits_role e he with hr | hr <;> simp [hr]
  rw [specWriteSeq, roleHist_append, roleHist_append, hnil]
  rw [show roleHist [(Role.latch, Level.low)] Role.latch = [Level.low] from rfl,
    show roleHist [(Role.latch, Level.high)] Role.latch = [Level.high] from rfl]
  rfl

lemma update_result_fields {P1 P2 P3 : Type} {f : Faults} {s u : SR P1 P2 P3}
    {index : Nat} {command : Bool}
    (h : update f s index command = .ok u ∨
         update f s index command = .error u) :
    u.clock = s.clock ∧ u.latch = s.latch ∧ u.data = s.data := by
  have hlt : index < s.output_state.length := by
    by_contra hge
    push_neg at hge
    have hp := (update_panicked_iff f s index command).mpr hge
    rcases h with h | h <;> rw [h] at hp <;> cases hp
  obtain ⟨s', hor, hc, hl, hd, -⟩ := update_char f s index command hlt
  rcases h with h | h <;> rcases hor with h' | h' <;> rw [h] at h'
  · injection h' with hus
    subst hus
    exact ⟨hc, hl, hd⟩
  · cases h'
  · cases h'
  · injection h' with hus
    subst hus
    exact ⟨hc, hl, hd⟩

lemma reaches_pins_eq {P1 P2 P3 : Type} {f : Faults} {s t : SR P1 P2 P3}
    (hr : Reaches f s t) :
    t.clock = s.clock ∧ t.latch = s.latch ∧ t.data = s.data := by
  induction hr with
  | refl => exact ⟨rfl, rfl, rfl⟩
  | stepOk _ hok ih =>
    obtain ⟨hc, hl, hd⟩ := update_result_fields (Or.inl hok)
    exact ⟨hc.trans ih.1, hl.trans ih.2.1, hd.trans ih.2.2⟩
  | stepErr _ herr ih =>
    obtain ⟨hc, hl, hd⟩ := update_result_fields (Or.inr herr)
    exact ⟨hc.trans ih.1, hl.trans ih.2.1, hd.trans ih.2.2⟩

/-! ### Concrete instances used by witnesses and counterexamples -/

/-- A fault model where every pin write succeeds. -/
def allOk : Faults := fun _ _ _ => true

lemma allOk_faultFree : faultFree allOk := fun _ _ _ => rfl

/-- The clock pin rejects every write; latch and data always succeed. -/
def clockFail : Faults := fun r _ _ => !(r == Role.clock)

/-- The data pin rejects every write; latch and clock always succeed. -/
def dataFail : Faults := fun r _ _ => !(r == Role.data)

/-- The clock pin fails exactly its fifth write, i.e. the rising edge of
the third clock pulse (its history then holds four levels). -/
def clockFail3 : Faults := fun r h _ => !(r == Role.clock && h.length == 4)

/-- A fresh two-bit register over `Nat`-labelled pins. -/
def s2 : SR Nat Nat Nat := new 0 1 2 2

/-- An eight-bit register whose bits 7, 3 and 0 are commanded high. -/
def w8 : SR Nat Nat Nat :=
  { clock := 0, latch := 1, data := 2,
    output_state := [true, false, false, true, false, false, false, true],
    trace := [] }

/-- The state in which `update clockFail3 w8 0 true` aborts: latch has
gone low, bits 7 and 6 have been shifted, the data line holds bit 5, and
the third clock rising edge has failed. -/
def w8err : SR Nat Nat Nat :=
  { clock := 0, latch := 1, data := 2,
    output_state := [true, false, false, true, false, false, false, true],
    trace := [(Role.latch, Level.low), (Role.data, Level.high),
              (Role.clock, Level.high), (Role.clock, Level.low),
              (Role.data, Level.low), (Role.clock, Level.high),
              (Role.clock, Level.low), (Role.data, Level.low)] }

/-! ### Claim theorems -/

/-- Claim C1: a successful `update(i, v)` performs exactly the physical
write sequence: latch low; then for each bit position from `N-1` down to
`0`, data driven to that bit's value followed by a clock high/low pulse;
then latch high — with fault-free pins the call succeeds and appends
exactly `specWriteSeq` to the trace, and the in-memory array gains the
commanded bit. -/
theorem c1_write_sequence {P1 P2 P3 : Type} (f : Faults) (s : SR P1 P2 P3)
    (index : Nat) (value : Bool) (hf : faultFree f)
    (h : index < s.output_state.length) :
    update f s index value =
      .ok { s with
        output_state := s.output_state.set index value,
        trace := s.trace ++ specWriteSeq (s.output_state.set index value) } :=
  update_faultFree hf s index value h

/-- Witness for C1, at the spec's own example: `N = 8` with bits 7, 3, 0
high yields the data-line pattern `[1,0,0,0,1,0,0,1]`, highest index
first. -/
theorem c1_witness :
    update allOk w8 0 true =
      .ok { w8 with
        output_state := w8.output_state.set 0 true,
        trace := w8.trace ++ specWriteSeq (w8.output_state.set 0 true) } ∧
    roleHist (specWriteSeq (w8.output_state.set 0 true)) Role.data =
      [Level.high, Level.low, Level.low, Level.low,
       Level.high, Level.low, Level.low, Level.high] :=
  ⟨c1_write_sequence allOk w8 0 true allOk_faultFree (by decide), by decide⟩

/-- Claim C2 is falsified by the code: a clock failure and a data failure
produce the very same caller-visible error `Err(())` — the unit error
carries no tag naming the failing role and wraps no cause (the source maps
every pin error through `.map_err(|_e| ())`).  The two runs abort at
different pins, as their traces show. -/
theorem c2_counterexample :
    update clockFail s2 0 true =
      .error { s2 with output_state := [true, false],
                       trace := [(Role.latch, Level.low),
                                 (Role.data, Level.low)] } ∧
    update dataFail s2 0 true =
      .error { s2 with output_state := [true, false],
                       trace := [(Role.latch, Level.low)] } ∧
    (update clockFail s2 0 true).toResult =
      (update dataFail s2 0 true).toResult :=
  ⟨by decide, by decide, rfl⟩

/-- Claim C2 (amended): when a physical pin write fails, `update` returns
the untagged unit error `Err(())`, which identifies no role and wraps no
cause; `set_high` and `set_low` on a virtual pin return exactly `update`'s
result, forwarding that same error. -/
theorem c2_unit_error {P1 P2 P3 : Type} (f : Faults) (s s' : SR P1 P2 P3)
    (index : Nat) (value : Bool)
    (he : update f s index value = .error s') :
    (update f s index value).toResult = some (Except.error ()) ∧
    ∀ p : ShiftRegisterPin,
      ShiftRegisterPin.set_high f p s = update f s p.index true ∧
      ShiftRegisterPin.set_low f p s = update f s p.index false :=
  ⟨by rw [he]; rfl, fun p => ⟨rfl, rfl⟩⟩

/-- Witness for the amended C2 at a concrete failing run. -/
theorem c2_witness :
    (update dataFail s2 0 true).toResult = some (Except.error ()) ∧
    ∀ p : ShiftRegisterPin,
      ShiftRegisterPin.set_high dataFail p s2 = update dataFail s2 p.index true ∧
      ShiftRegisterPin.set_low dataFail p s2 = update dataFail s2 p.index false :=
  c2_unit_error dataFail s2
    { s2 with output_state := [true, false],
              trace := [(Role.latch, Level.low)] }
    0 true (by decide)

/-- Claim C3: a failing `update` returns at once — the writes it made are
a proper prefix of the intended sequence, the latch-high step is never
among them, and the latch line either was never touched or was left
driven low. -/
theorem c3_error_aborts {P1 P2 P3 : Type} (f : Faults) (s s' : SR P1 P2 P3)
    (index : Nat) (value : Bool) (h : index < s.output_state.length)
    (he : update f s index value = .error s') :
    ∃ w, s'.trace = s.trace ++ w ∧
      w <+: specWriteSeq (s.output_state.set index value) ∧
      w ≠ specWriteSeq (s.output_state.set index value) ∧
      (Role.latch, Level.high) ∉ w ∧
      (roleHist s'.trace Role.latch = roleHist s.trace Role.latch ∨
        roleHist s'.trace Role.latch =
          roleHist s.trace Role.latch ++ [Level.low]) := by
  obtain ⟨w, h1, h2, h3, h4, h5⟩ := update_error_trace h he
  refine ⟨w, h1, h2, ?_, h4, h5⟩
  intro hEq
  rw [hEq] at h3
  omega

/-- Witness for C3, at the spec's fault-injection scenario: during an
8-bit update the clock pin fails on its third pulse; the call aborts with
no latch-high write, latch left low. -/
theorem c3_witness :
    ∃ w, w8err.trace = w8.trace ++ w ∧
      w <+: specWriteSeq (w8.output_state.set 0 true) ∧
      w ≠ specWriteSeq (w8.output_state.set 0 true) ∧
      (Role.latch, Level.high) ∉ w ∧
      (roleHist w8err.trace Role.latch = roleHist w8.trace Role.latch ∨
        roleHist w8err.trace Role.latch =
          roleHist w8.trace Role.latch ++ [Level.low]) :=
  c3_error_aborts clockFail3 w8 w8err 0 true (by decide) (by decide)

/-- Claim C4: for an in-bounds index, `update` — succeeding or failing —
leaves `output_state[index] = value` and every other entry unchanged; the
in-memory write precedes the physical sequence and is never rolled
back. -/
theorem c4_state_write {P1 P2 P3 : Type} (f : Faults) (s : SR P1 P2 P3)
    (index : Nat) (value : Bool) (h : index < s.output_state.length) :
    ∃ s', (update f s index value = .ok s' ∨
           update f s index value = .error s') ∧
      s'.output_state = s.output_state.set index value ∧
      s'.output_state[index]? = some value ∧
      ∀ j, j ≠ index → s'.output_state[j]? = s.output_state[j]? := by
  obtain ⟨s', hor, -, -, -, hout⟩ := update_char f s index value h
  refine ⟨s', hor, hout, ?_, ?_⟩
  · rw [hout, List.getElem?_set_self']
    simp [List.getElem?_eq_getElem h]
  · intro j hj
    rw [hout]
    exact List.getElem?_set_ne (fun hc => hj hc.symm)

/-- Witness for C4 at a run whose physical sequence fails (the data pin
rejects every write): the in-memory bit is still updated. -/
theorem c4_witness :
    ∃ s', (update dataFail s2 0 true = .ok s' ∨
           update dataFail s2 0 true = .error s') ∧
      s'.output_state = s2.output_state.set 0 true ∧
      s'.output_state[0]? = some true ∧
      ∀ j, j ≠ 0 → s'.output_state[j]? = s2.output_state[j]? :=
  c4_state_write dataFail s2 0 true (by decide)

/-- Claim C5: with fault-free pins, `set_high()` then `set_low()` on
virtual pin `i` of a fresh width-`N` register performs two full updates:
exactly `2 × N` clock pulses (`N` per call), exactly two latch low→high
cycles (one per call), and leaves `output_state[i] = false`; each
`set_high`/`set_low` call is exactly `update(i, true)`/`update(i, false)`
with no deduplication. -/
theorem c5_high_low_pulses {P1 P2 P3 : Type} (f : Faults) (c : P1) (l : P2)
    (d : P3) (n i : Nat) (hf : faultFree f) (h : i < n) :
    ∃ s1 s2,
      ShiftRegisterPin.set_high f ⟨i⟩ (new c l d n) = .ok s1 ∧
      ShiftRegisterPin.set_low f ⟨i⟩ s1 = .ok s2 ∧
      roleHist s2.trace Role.clock =
        (List.replicate (2 * n) [Level.high, Level.low]).flatten ∧
      roleHist s2.trace Role.latch =
        [Level.low, Level.high, Level.low, Level.high] ∧
      s2.output_state[i]? = some false ∧
      (∀ (s : SR P1 P2 P3) (p : ShiftRegisterPin),
        ShiftRegisterPin.set_high f p s = update f s p.index true ∧
        ShiftRegisterPin.set_low f p s = update f s p.index false) := by
  have h1 := update_faultFree hf (new c l d n) i true
    (show i < (List.replicate n false).length by simpa using h)
  refine ⟨SR.mk c l d ((List.replicate n false).set i true)
      (specWriteSeq ((List.replicate n false).set i true)),
    SR.mk c l d (((List.replicate n false).set i true).set i false)
      (specWriteSeq ((List.replicate n false).set i true) ++
        specWriteSeq (((List.replicate n false).set i true).set i false)),
    ?_, ?_, ?_, ?_, ?_, fun s p => ⟨rfl, rfl⟩⟩
  · exact h1
  · exact update_faultFree hf
      (SR.mk c l d ((List.replicate n false).set i true)
        (specWriteSeq ((List.replicate n false).set i true)))
      i false
      (show i < ((List.replicate n false).set i true).length by simpa using h)
  · show roleHist
        (specWriteSeq ((List.replicate n false).set i true) ++
          specWriteSeq (((List.replicate n false).set i true).set i false))
        Role.clock = _
    rw [roleHist_append, roleHist_specWriteSeq_clock, roleHist_specWriteSeq_clock,
      show ((List.replicate n false).set i true).length = n by simp,
      show (((List.replicate n false).set i true).set i false).length = n by simp,
      ← List.flatten_append, ← List.replicate_add, two_mul]
  · show roleHist
        (specWriteSeq ((List.replicate n false).set i true) ++
          specWriteSeq (((List.replicate n false).set i true).set i false))
        Role.latch = _
    rw [roleHist_append, roleHist_specWriteSeq_latch, roleHist_specWriteSeq_latch]
    rfl
  · show ((((List.replicate n false).set i true).set i false))[i]? = some false
    rw [List.getElem?_set_self']
    simp [List.getElem?_eq_getElem
      (show i < ((List.replicate n false).set i true).length by simpa using h)]

/-- Witness for C5 with `N = 8`, `i = 3` over fault-free pins. -/
theorem c5_witness :
    ∃ s1 s2,
      ShiftRegisterPin.set_high allOk ⟨3⟩ (new 0 1 2 8 : SR Nat Nat Nat) =
        .ok s1 ∧
      ShiftRegisterPin.set_low allOk ⟨3⟩ s1 = .ok s2 ∧
      roleHist s2.trace Role.clock =
        (List.replicate (2 * 8) [Level.high, Level.low]).flatten ∧
      roleHist s2.trace Role.latch =
        [Level.low, Level.high, Level.low, Level.high] ∧
      s2.output_state[3]? = some false ∧
      (∀ (s : SR Nat Nat Nat) (p : ShiftRegisterPin),
        ShiftRegisterPin.set_high allOk p s = update allOk s p.index true ∧
        ShiftRegisterPin.set_low allOk p s = update allOk s p.index false) :=
  c5_high_low_pulses allOk 0 1 2 8 3 allOk_faultFree (by decide)

/-- Claim C6: `decompose` yields exactly `N` virtual pins whose indices
are `0, ..., N-1` in order (hence no duplicates and no gaps) and performs
no physical pin write — the register is untouched. -/
theorem c6_decompose {P1 P2 P3 : Type} (s : SR P1 P2 P3) :
    ((decompose s).1).length = s.output_state.length ∧
    ((decompose s).1).map ShiftRegisterPin.index =
      List.range s.output_state.length ∧
    (((decompose s).1).map ShiftRegisterPin.index).Nodup ∧
    (decompose s).2 = s := by
  have hmap : ((decompose s).1).map ShiftRegisterPin.index =
      List.range s.output_state.length := by
    simp only [decompose, List.map_map]
    rw [show (ShiftRegisterPin.index ∘ fun index => ShiftRegisterPin.mk index) =
        id from funext fun _ => rfl]
    exact List.map_id _
  exact ⟨by simp [decompose], hmap,
    hmap ▸ List.nodup_range s.output_state.length, rfl⟩

/-- Claim C7: after any sequence of `update` calls starting from
`new(clock, latch, data)`, `release` hands back exactly the three pin
handles given to `new`, in order, and performs no physical write (it is a
pure projection of the stored handles). -/
theorem c7_release_round_trip {P1 P2 P3 : Type} (f : Faults) (c : P1)
    (l : P2) (d : P3) (n : Nat) (s : SR P1 P2 P3)
    (hr : Reaches f (new c l d n) s) :
    release s = (c, l, d) ∧
    release s = (s.clock, s.latch, s.data) ∧
    release (new c l d n) = (c, l, d) := by
  obtain ⟨hc, hl, hd⟩ := reaches_pins_eq hr
  refine ⟨?_, rfl, rfl⟩
  rw [release, hc, hl, hd]
  rfl

/-- The register after `update clockFail3 (new 0 1 2 2) 0 true`, which
succeeds (the clock's fifth write has not yet been reached). -/
def w2a : SR Nat Nat Nat :=
  { clock := 0, latch := 1, data := 2,
    output_state := [true, false],
    trace := specWriteSeq [true, false] }

/-- The register after the next call `update clockFail3 w2a 1 false`,
which aborts on the clock pin's fifth write. -/
def w2b : SR Nat Nat Nat :=
  { clock := 0, latch := 1, data := 2,
    output_state := [true, false],
    trace := specWriteSeq [true, false] ++
      [(Role.latch, Level.low), (Role.data, Level.low)] }

/-- Witness for C7 after one successful and one failing update. -/
theorem c7_witness :
    release w2b = (0, 1, 2) ∧
    release w2b = (w2b.clock, w2b.latch, w2b.data) ∧
    release (new 0 1 2 2 : SR Nat Nat Nat) = (0, 1, 2) :=
  c7_release_round_trip clockFail3 0 1 2 2 w2b
    (Reaches.stepErr (u := w2b) (i := 1) (v := false)
      (Reaches.stepOk (u := w2a) (i := 0) (v := true)
        (Reaches.refl _) (by decide))
      (by decide))

/-- Claim C8: `new(clock, latch, data)` initialises all `N` bits of
`output_state` to false and performs no physical pin write. -/
theorem c8_new_initial {P1 P2 P3 : Type} (c : P1) (l : P2) (d : P3)
    (n : Nat) :
    (new c l d n).output_state = List.replicate n false ∧
    (new c l d n).output_state.length = n ∧
    (new c l d n).trace = [] :=
  ⟨rfl, by simp [new], rfl⟩

/-- Claim C10: `update` performs the initial array write with no bounds
check at the public interface — it panics exactly when `index` is out of
bounds, and for an in-bounds index no array access (the initial write or
the per-bit reads `output_state[len - i]`) misses. -/
theorem c10_bounds {P1 P2 P3 : Type} (f : Faults) (s : SR P1 P2 P3)
    (index : Nat) (command : Bool) :
    update f s index command = .panicked ↔ s.output_state.length ≤ index :=
  update_panicked_iff f s index command

/-! ### The freertos variant (src/sipo.rs, `feature = "freertos"`)

Here the three pins and `output_state` each sit behind a FreeRTOS mutex
locked with a 1 ms timeout.  A `LockOracle` decides, per mutex and per
acquisition attempt, whether the lock is obtained or times out. -/

/-- The four internal mutexes of the freertos variant. -/
inductive LockId
  | ostate
  | clockM
  | latchM
  | dataM
deriving DecidableEq, Repr

/-- Decides whether the `n`-th acquisition attempt (counted from 0,
per mutex) succeeds or times out. -/
def LockOracle : Type := LockId → Nat → Bool

/-- State of the freertos register: the `output_state` array, the
physical write trace, and each mutex's acquisition-attempt count. -/
structure FSR where
  output_state : List Bool
  trace : Trace
  aOstate : Nat
  aClock : Nat
  aLatch : Nat
  aData : Nat
deriving DecidableEq, Repr

/-- Attempt count of one mutex. -/
def FSR.attempts (s : FSR) : LockId → Nat
  | .ostate => s.aOstate
  | .clockM => s.aClock
  | .latchM => s.aLatch
  | .dataM => s.aData

/-- Record one more acquisition attempt on a mutex. -/
def FSR.bump (s : FSR) : LockId → FSR
  | .ostate => { s with aOstate := s.aOstate + 1 }
  | .clockM => { s with aClock := s.aClock + 1 }
  | .latchM => { s with aLatch := s.aLatch + 1 }
  | .dataM => { s with aData := s.aData + 1 }

/-- One `lock(Duration::ms(1))` call: the oracle judges this attempt,
and the attempt is consumed either way. -/
def tryLock (o : LockOracle) (s : FSR) (l : LockId) : Bool × FSR :=
  (o l (s.attempts l), s.bump l)

/-- A physical pin write performed on the freertos state. -/
def fsrPinWrite (f : Faults) (s : FSR) (r : Role) (lv : Level) :
    Option FSR :=
  match pinWrite f s.trace r lv with
  | none => none
  | some t => some { s with trace := t }

/-- The recurring freertos pattern
`if let Ok(mut pin) = mutex.lock(ms(1)) { pin.set_xx().map_err(|_e| ())?; }`:
a lock timeout silently skips the write and continues; an acquired lock
performs the write, whose failure aborts `update` with `Err(())` (the
`error` constructor carries the state at that point). -/
def lockedWrite (o : LockOracle) (f : Faults) (s : FSR) (l : LockId)
    (r : Role) (lv : Level) : Except FSR FSR :=
  match tryLock o s l with
  | (true, s1) =>
    match fsrPinWrite f s1 r lv with
    | none => .error s1
    | some s2 => .ok s2
  | (false, s1) => .ok s1

/-- Result of the freertos `update`. -/
inductive FResult
  | ok (s : FSR)
  | error (s : FSR)
  | panicked
deriving DecidableEq, Repr

/-- Whether the caller sees `Ok(())`. -/
def FResult.isOk : FResult → Bool
  | .ok _ => true
  | .error _ => false
  | .panicked => false

/-- The state carried in the result, when the call returned at all. -/
def FResult.state? : FResult → Option FSR
  | .ok s => some s
  | .error s => some s
  | .panicked => none

/-- The loop of the freertos `update` (src/sipo.rs:187-203), iterating
`i = 1..=out.length` over the snapshot `out` held under the
`output_state` lock; both branches of the `if` acquire the data mutex
once, then the clock mutex is acquired once for each edge. -/
def fShiftLoop (o : LockOracle) (f : Faults) (out : List Bool) :
    List Nat → FSR → FResult
  | [], s => .ok s
  | i :: rest, s =>
    match out[out.length - i]? with
    | none => .panicked
    | some bit =>
      match (if bit then lockedWrite o f s .dataM .data .high
             else lockedWrite o f s .dataM .data .low) with
      | .error s1 => .error s1
      | .ok s1 =>
        match lockedWrite o f s1 .clockM .clock .high with
        | .error s2 => .error s2
        | .ok s2 =>
          match lockedWrite o f s2 .clockM .clock .low with
          | .error s3 => .error s3
          | .ok s3 => fShiftLoop o f out rest s3

/-- The body of the freertos `update` once the second `output_state`
lock is held (src/sipo.rs:183-208): latch low, the shift loop over the
locked snapshot, latch high, each via the skip-on-timeout `lockedWrite`
pattern, then `Ok(())`. -/
def fUpdateLocked (o : LockOracle) (f : Faults) (s3 : FSR) : FResult :=
  match lockedWrite o f s3 .latchM .latch .low with
  | .error s4 => .error s4
  | .ok s4 =>
    match fShiftLoop o f s3.output_state
        (List.range' 1 s3.output_state.length) s4 with
    | .panicked => .panicked
    | .error s5 => .error s5
    | .ok s5 =>
      match lockedWrite o f s5 .latchM .latch .high with
      | .error s6 => .error s6
      | .ok s6 => .ok s6

/-- The freertos `update` (src/sipo.rs:176-212).  First `output_state`
lock: if acquired, `output_state[index] = command` (a panic when out of
bounds); a timeout silently skips the write.  Second `output_state`
lock: a timeout returns `Err(())`; otherwise the locked body runs. -/
def fUpdate (o : LockOracle) (f : Faults) (s : FSR) (index : Nat)
    (command : Bool) : FResult :=
  match tryLock o s .ostate with
  | (ok1, s1) =>
    match (if ok1 then
            (if index < s1.output_state.length then
              some { s1 with
                output_state := s1.output_state.set index command }
             else none)
           else some s1) with
    | none => .panicked
    | some s2 =>
      match tryLock o s2 .ostate with
      | (ok2, s3) =>
        if ok2 then fUpdateLocked o f s3 else .error s3

lemma lockedWrite_faultFree {o : LockOracle} {f : Faults} {s : FSR}
    {l : LockId} {r : Role} {v : Level} (hf : faultFree f) :
    ∃ s', lockedWrite o f s l r v = .ok s' := by
  unfold lockedWrite tryLock
  cases hb : o l (s.attempts l)
  · exact ⟨s.bump l, rfl⟩
  · refine ⟨{ s.bump l with trace := (s.bump l).trace ++ [(r, v)] }, ?_⟩
    simp only [fsrPinWrite, pinWrite_faultFree hf]

lemma fShiftLoop_faultFree {o : LockOracle} {f : Faults} {out : List Bool}
    (hf : faultFree f) :
    ∀ (is : List Nat) (s : FSR), (∀ j ∈ is, 1 ≤ j ∧ j ≤ out.length) →
      ∃ s', fShiftLoop o f out is s = .ok s' := by
  intro is
  induction is with
  | nil => exact fun s _ => ⟨s, rfl⟩
  | cons i rest ih =>
    intro s hb
    have hi : 1 ≤ i ∧ i ≤ out.length := hb i (List.mem_cons_self ..)
    have hlt : out.length - i < out.length := by omega
    simp only [fShiftLoop, List.getElem?_eq_getElem hlt]
    obtain ⟨s1, hs1⟩ : ∃ s1, (if out[out.length - i] then
        lockedWrite o f s .dataM .data .high
        else lockedWrite o f s .dataM .data .low) = .ok s1 := by
      cases out[out.length - i] <;> exact lockedWrite_faultFree hf
    obtain ⟨s2, hs2⟩ := lockedWrite_faultFree (o := o) (s := s1)
      (l := .clockM) (r := .clock) (v := .high) hf
    obtain ⟨s3, hs3⟩ := lockedWrite_faultFree (o := o) (s := s2)
      (l := .clockM) (r := .clock) (v := .low) hf
    obtain ⟨s4, hs4⟩ := ih s3 (fun j hj => hb j (List.mem_cons_of_mem _ hj))
    exact ⟨s4, by simp only [hs1, hs2, hs3, hs4]⟩

lemma fUpdateLocked_faultFree {o : LockOracle} {f : Faults}
    (hf : faultFree f) (s3 : FSR) :
    ∃ s', fUpdateLocked o f s3 = .ok s' := by
  obtain ⟨s4, h4⟩ := lockedWrite_faultFree (o := o) (s := s3)
    (l := .latchM) (r := .latch) (v := .low) hf
  obtain ⟨s5, h5⟩ := fShiftLoop_faultFree (o := o) hf
    (List.range' 1 s3.output_state.length) s4
    (range'_bounds s3.output_state.length)
  obtain ⟨s6, h6⟩ := lockedWrite_faultFree (o := o) (s := s5)
    (l := .latchM) (r := .latch) (v := .high) hf
  exact ⟨s6, by simp only [fUpdateLocked, h4, h5, h6]⟩

/-- The lock oracle under which every acquisition of the latch mutex
times out and every other lock is obtained at once. -/
def latchTimeout : LockOracle := fun l _ => !(l == LockId.latchM)

/-- A fresh eight-bit freertos register. -/
def s9 : FSR :=
  { output_state := List.replicate 8 false, trace := [],
    aOstate := 0, aClock := 0, aLatch := 0, aData := 0 }

/-- Claim C9 is falsified by the code: with every acquisition of the
latch mutex timing out (and fault-free pins), `update` still returns
`Ok(())` — the timeout is silently swallowed, the two latch writes are
skipped (no latch event in the trace) while all eight bits are clocked
out de-latched.  The caller cannot distinguish this from success. -/
theorem c9_counterexample :
    (fUpdate latchTimeout allOk s9 0 true).isOk = true ∧
    ((fUpdate latchTimeout allOk s9 0 true).state?.map
      fun s => roleHist s.trace Role.latch) = some [] ∧
    ((fUpdate latchTimeout allOk s9 0 true).state?.map
      fun s => roleHist s.trace Role.clock) =
        some (List.replicate 8 [Level.high, Level.low]).flatten :=
  ⟨by decide, by decide, by decide⟩

/-- Claim C9 (amended): in the freertos `update`, with fault-free pins
and an in-bounds index, the call reports failure exactly when the second
`output_state` lock acquisition times out; timeouts on the clock, latch,
or data mutexes (or on the first `output_state` lock) are silently
ignored — the corresponding writes are skipped — and the call still
returns `Ok(())`. -/
theorem c9_lock_timeout (o : LockOracle) (f : Faults) (s : FSR)
    (index : Nat) (command : Bool) (h : index < s.output_state.length)
    (hf : faultFree f) :
    (fUpdate o f s index command).isOk = true ↔
      o LockId.ostate (s.aOstate + 1) = true := by
  simp only [fUpdate, tryLock, FSR.attempts, FSR.bump]
  cases hb1 : o LockId.ostate s.aOstate
  · simp only [Bool.false_eq_true, if_false]
    cases hb2 : o LockId.ostate (s.aOstate + 1)
    · simp only [Bool.false_eq_true, if_false, FResult.isOk]
    · obtain ⟨s', hs'⟩ := fUpdateLocked_faultFree (o := o) hf
        { output_state := s.output_state, trace := s.trace,
          aOstate := s.aOstate + 1 + 1, aClock := s.aClock,
          aLatch := s.aLatch, aData := s.aData }
      rw [if_pos rfl, hs']
      simp [FResult.isOk]
  · rw [if_pos rfl, if_pos h]
    dsimp only
    cases hb2 : o LockId.ostate (s.aOstate + 1)
    · simp only [Bool.false_eq_true, if_false, FResult.isOk]
    · obtain ⟨s', hs'⟩ := fUpdateLocked_faultFree (o := o) hf
        { output_state := s.output_state.set index command, trace := s.trace,
          aOstate := s.aOstate + 1 + 1, aClock := s.aClock,
          aLatch := s.aLatch, aData := s.aData }
      rw [if_pos rfl, hs']
      simp [FResult.isOk]

/-- Witness for the amended C9: the latch-timeout run reports success
because the `output_state` lock itself is always obtained. -/
theorem c9_witness : (fUpdate latchTimeout allOk s9 0 true).isOk = true :=
  (c9_lock_timeout latchTimeout allOk s9 0 true (by decide)
    allOk_faultFree).mpr rfl

end Sipo
